import Mathlib

/-!
# StringSightFirmware — port-indexed binary payload schema system

Shallow embedding of the payload codec of the StringSightFirmware repository:

* `sensorPortSchema` and `encodeDataWithSchema` are translated from
  `src/lib/PortSchema/src/SensorPortSchema.cpp` (the templated encoder that
  all `sensorPortSchema::encodeData` overloads delegate to).
* `portSchema`, `PORTERROR` and the `PORT1` … `PORT59` tables are translated
  from `src/lib/PortSchema/src/PortSchema.h`.
* The bodies of `getPort`, `portSchema::operator+`,
  `portSchema::encodeSensorDataToPayload` and the decoder are not part of the
  sources; those definitions are modelled from the specification and are
  marked as such in their doc comments.

Machine integers are modelled as `Nat`/`Int` with explicit `% 2 ^ w` where the
C code truncates; the C `float` readings and `scale_factor` are idealised as
exact rationals, with the `(int)` cast modelled as truncation toward zero.
-/

namespace StringSight

/-- Field codec parameters of one sensor, as used by `encodeDataWithSchema`
(`n_bytes`, `n_values`, `scale_factor`, `is_signed` are the members of the
C++ `sensorPortSchema` struct that the encoder reads). -/
structure sensorPortSchema where
  n_bytes : Nat
  n_values : Nat
  scale_factor : ℚ
  is_signed : Bool
deriving DecidableEq

/-- The LoRaWAN payload struct `lmh_app_data_t`: a byte buffer (modelled as a
total map from index to stored byte), the current fill length `buffsize`
(a `uint8_t` in C), the port number and the two radio metadata fields. -/
structure lmh_app_data_t where
  buffer : Nat → Nat
  buffsize : Nat
  port : Nat
  rssi : Int
  snr : Int

/-- Truncation toward zero, the semantics of the C `(int)` cast applied to the
scaled reading `((float)sensor_data) * scale_factor`. -/
def truncTowardZero (q : ℚ) : Int :=
  if 0 ≤ q then ⌊q⌋ else ⌈q⌉

/-- Value of a 32-bit two's-complement `int` whose bit pattern is `n % 2 ^ 32`;
models the C conversion of the literal `0xFFFFFFFF` to `int` (giving `-1`). -/
def int32OfBits (n : Nat) : Int :=
  if n % 2 ^ 32 < 2 ^ 31 then ((n % 2 ^ 32 : Nat) : Int)
  else ((n % 2 ^ 32 : Nat) : Int) - 2 ^ 32

/-- The 32-bit bit pattern of the `int` variable `data_to_encode`. -/
def bits32OfInt (x : Int) : Nat :=
  (x % 2 ^ 32).toNat

/-- The value of the local variable `data_to_encode` of `encodeDataWithSchema`:
the scaled reading truncated toward zero when `valid`, else the sentinel
constant `0x7F7F7F7F` (signed) or `0xFFFFFFFF` (unsigned, which is `-1` once
converted to `int`). -/
def dataToEncode (sensor_data : ℚ) (valid : Bool) (sensor_schema : sensorPortSchema) : Int :=
  if valid then
    truncTowardZero (sensor_data * sensor_schema.scale_factor)
  else
    if sensor_schema.is_signed then int32OfBits 0x7F7F7F7F
    else int32OfBits 0xFFFFFFFF

/-- One iteration of the encoder loop body: the byte stored for loop index
`j`.  For `j > 0` the source computes
`(uint8_t)((data_to_encode & (0xFF << (j*8))) >> (j*8))`, for `j = 0` it
computes `(uint8_t)(data_to_encode & 0xFF)`; both act on the 32-bit pattern of
`data_to_encode`. -/
def encodeByte (pattern : Nat) (j : Nat) : Nat :=
  if 0 < j then
    ((pattern &&& (0xFF <<< (j * 8))) >>> (j * 8)) % 256
  else
    (pattern &&& 0xFF) % 256

/-- The encoder's `for (; i < data_size; i++, j--)` loop: iteration `i` stores
`encodeByte pattern j` with `j = data_size - 1 - i` at `buffer[buf_pos + i]`. -/
def encodeLoop (pattern buf_pos data_size : Nat) (buffer : Nat → Nat) : Nat → Nat :=
  (List.range data_size).foldl
    (fun buf i => Function.update buf (buf_pos + i) (encodeByte pattern (data_size - 1 - i)))
    buffer

/-- `encodeDataWithSchema` from `SensorPortSchema.cpp`: byte-encodes one
sensor reading into the payload according to the given codec.  Returns the
updated payload together with the flag whether the
"A signed value is being sent for a sensor port schema that is unsigned"
warning was logged. -/
def encodeDataWithSchema (sensor_data : ℚ) (valid : Bool)
    (lorawan_payload : lmh_app_data_t) (sensor_schema : sensorPortSchema) :
    lmh_app_data_t × Bool :=
  let buf_pos := lorawan_payload.buffsize
  let data_to_encode : Int := dataToEncode sensor_data valid sensor_schema
  let warned : Bool := !sensor_schema.is_signed && decide (data_to_encode < 0)
  let data_size := sensor_schema.n_bytes / sensor_schema.n_values
  let pattern := bits32OfInt data_to_encode
  ({ lorawan_payload with
      buffer := encodeLoop pattern buf_pos data_size lorawan_payload.buffer
      buffsize := (buf_pos + data_size) % 256 },
   warned)

/-- The sensor field kinds, in the canonical wire order used by every port
(the member order of the `portSchema` flags in `PortSchema.h`). -/
inductive SensorFieldKind where
  | BatteryVoltage
  | Temperature
  | RelativeHumidity
  | AirPressure
  | GasResistance
  | Location
  | CurrentSensor
deriving DecidableEq

/-- `portSchema` from `PortSchema.h`: a port number together with one
inclusion flag per sensor field. -/
structure portSchema where
  port_number : Nat
  sendBatteryVoltage : Bool
  sendTemperature : Bool
  sendRelativeHumidity : Bool
  sendAirPressure : Bool
  sendGasResistance : Bool
  sendLocation : Bool
  sendCurrentSensor : Bool
deriving DecidableEq

/-- The inclusion flag of a port for a given sensor field kind. -/
def portSchema.includes (p : portSchema) : SensorFieldKind → Bool
  | .BatteryVoltage => p.sendBatteryVoltage
  | .Temperature => p.sendTemperature
  | .RelativeHumidity => p.sendRelativeHumidity
  | .AirPressure => p.sendAirPressure
  | .GasResistance => p.sendGasResistance
  | .Location => p.sendLocation
  | .CurrentSensor => p.sendCurrentSensor

/-- The distinguished error schema (`__UINT8_MAX__` port number, all flags
false), from `PortSchema.h`. -/
def PORTERROR : portSchema := ⟨255, false, false, false, false, false, false, false⟩

def PORT1 : portSchema := ⟨1, true, false, false, false, false, false, false⟩

def PORT2 : portSchema := ⟨2, false, true, false, false, false, false, false⟩

def PORT3 : portSchema := ⟨3, true, true, false, false, false, false, false⟩

def PORT4 : portSchema := ⟨4, false, true, true, false, false, false, false⟩

def PORT5 : portSchema := ⟨5, true, true, true, false, false, false, false⟩

def PORT6 : portSchema := ⟨6, false, true, true, true, false, false, false⟩

def PORT7 : portSchema := ⟨7, true, true, true, true, false, false, false⟩

def PORT8 : portSchema := ⟨8, false, true, true, true, true, false, false⟩

def PORT9 : portSchema := ⟨9, true, true, true, true, true, false, false⟩

def PORT10 : portSchema := ⟨10, false, false, false, false, false, false, true⟩

def PORT11 : portSchema := ⟨11, true, false, false, false, false, false, true⟩

def PORT50 : portSchema := ⟨50, false, false, false, false, false, true, false⟩

def PORT51 : portSchema := ⟨51, true, false, false, false, false, true, false⟩

def PORT52 : portSchema := ⟨52, false, true, false, false, false, true, false⟩

def PORT53 : portSchema := ⟨53, true, true, false, false, false, true, false⟩

def PORT54 : portSchema := ⟨54, false, true, true, false, false, true, false⟩

def PORT55 : portSchema := ⟨55, true, true, true, false, false, true, false⟩

def PORT56 : portSchema := ⟨56, false, true, true, true, false, true, false⟩

def PORT57 : portSchema := ⟨57, true, true, true, true, false, true, false⟩

def PORT58 : portSchema := ⟨58, false, true, true, true, true, true, false⟩

def PORT59 : portSchema := ⟨59, true, true, true, true, true, true, false⟩

/-- The fixed table of registered ports declared in `PortSchema.h`. -/
def registeredPorts : List portSchema :=
  [PORT1, PORT2, PORT3, PORT4, PORT5, PORT6, PORT7, PORT8, PORT9, PORT10, PORT11,
   PORT50, PORT51, PORT52, PORT53, PORT54, PORT55, PORT56, PORT57, PORT58, PORT59]

/-- Modelled from the spec: the body of `getPort` (declared in `PortSchema.h`,
implementation not among the sources) returns the registered `portSchema` with
the given port number, and the distinguished error schema `PORTERROR` for any
unregistered number. -/
def getPort (port_number : Nat) : portSchema :=
  match registeredPorts.find? (fun p => p.port_number == port_number) with
  | some p => p
  | none => PORTERROR

/-- Modelled from the spec: the body of `portSchema::operator+` (declared in
`PortSchema.h`, implementation not among the sources): "The port number is set
to 0, and the send sensor flags are ||'ed." -/
def portSchema.combine (p1 p2 : portSchema) : portSchema :=
  { port_number := 0
    sendBatteryVoltage := p1.sendBatteryVoltage || p2.sendBatteryVoltage
    sendTemperature := p1.sendTemperature || p2.sendTemperature
    sendRelativeHumidity := p1.sendRelativeHumidity || p2.sendRelativeHumidity
    sendAirPressure := p1.sendAirPressure || p2.sendAirPressure
    sendGasResistance := p1.sendGasResistance || p2.sendGasResistance
    sendLocation := p1.sendLocation || p2.sendLocation
    sendCurrentSensor := p1.sendCurrentSensor || p2.sendCurrentSensor }

/-- The canonical field order {BatteryVoltage, Temperature, RelativeHumidity,
AirPressure, GasResistance, Location, CurrentSensor}. -/
def canonicalFieldOrder : List SensorFieldKind :=
  [.BatteryVoltage, .Temperature, .RelativeHumidity, .AirPressure,
   .GasResistance, .Location, .CurrentSensor]

/-- The encoded length of a port under a codec table: the sum of `n_bytes`
over the port's included fields. -/
def encodedLength (codecs : SensorFieldKind → sensorPortSchema) (p : portSchema) : Nat :=
  ((canonicalFieldOrder.filter (fun k => p.includes k)).map
    (fun k => (codecs k).n_bytes)).sum

/-- One sensor reading of a snapshot: the measured value(s) (a field with
`n_values > 1` carries one rational per sub-value) and the validity flag. -/
structure SensorReading where
  values : List ℚ
  valid : Bool

/-- Modelled from the spec: the per-field step of
`portSchema::encodeSensorDataToPayload` (implementation not among the
sources) calls `sensorPortSchema::encodeData` once per sub-value of the
field, appending each sub-value's bytes in turn. -/
def encodeField (codec : sensorPortSchema) (reading : SensorReading)
    (payload : lmh_app_data_t) : lmh_app_data_t :=
  (List.range codec.n_values).foldl
    (fun p idx => (encodeDataWithSchema (reading.values.getD idx 0) reading.valid p codec).1)
    payload

/-- Modelled from the spec: `portSchema::encodeSensorDataToPayload`
(implementation not among the sources) walks the canonical field order and,
for each field whose inclusion flag is set, encodes the matching snapshot
reading into the payload buffer starting at `start_pos`; the final `buffsize`
is the total write offset it returns. -/
def encodeSensorDataToPayload (codecs : SensorFieldKind → sensorPortSchema)
    (port : portSchema) (sensor_data : SensorFieldKind → SensorReading)
    (payload_buffer : Nat → Nat) (start_pos : Nat) : lmh_app_data_t :=
  canonicalFieldOrder.foldl
    (fun p k => if port.includes k then encodeField (codecs k) (sensor_data k) p else p)
    { buffer := payload_buffer, buffsize := start_pos, port := port.port_number
      rssi := 0, snr := 0 }

/-- Big-endian reassembly of `ds` buffer bytes starting at `pos`. -/
def reassemble (buffer : Nat → Nat) (pos ds : Nat) : Nat :=
  (List.range ds).foldl (fun acc i => acc * 256 + buffer (pos + i)) 0

/-- The byte `b` repeated over `ds` big-endian byte positions. -/
def repByte (b ds : Nat) : Nat :=
  (List.range ds).foldl (fun acc _ => acc * 256 + b) 0

/-- Modelled from the spec: the field decoder (no decode code is among the
sources).  It reassembles the big-endian integer from
`n_bytes / n_values` bytes, flags `was_valid = false` exactly when that
integer equals the sentinel pattern for the field's width and signedness
(`0x7F` repeated if signed, `0xFF` repeated if unsigned), interprets the
integer as two's complement when the field is signed, and divides by
`scale_factor` to recover the reading. -/
def decodeDataWithSchema (buffer : Nat → Nat) (pos : Nat)
    (sensor_schema : sensorPortSchema) : ℚ × Bool :=
  let ds := sensor_schema.n_bytes / sensor_schema.n_values
  let raw := reassemble buffer pos ds
  let sentinel := repByte (if sensor_schema.is_signed then 0x7F else 0xFF) ds
  let n : Int :=
    if sensor_schema.is_signed then
      if 2 ^ (8 * ds - 1) ≤ raw then (raw : Int) - 2 ^ (8 * ds) else (raw : Int)
    else (raw : Int)
  ((n : ℚ) / sensor_schema.scale_factor, decide (raw ≠ sentinel))

/-- A concrete empty payload used by the concrete-input witnesses below. -/
def testPayload : lmh_app_data_t := ⟨fun _ => 0, 0, 1, 0, 0⟩

/-- `encodedLength` restricted to an arbitrary suffix of the canonical field
order. -/
def includedLength (codecs : SensorFieldKind → sensorPortSchema) (p : portSchema)
    (l : List SensorFieldKind) : Nat :=
  ((l.filter (fun k => p.includes k)).map (fun k => (codecs k).n_bytes)).sum

/-! ## Helper lemmas -/

theorem foldl_update_apply (v : Nat → Nat) (pos n : Nat) (buf : Nat → Nat) (k : Nat) :
    (List.range n).foldl (fun b i => Function.update b (pos + i) (v i)) buf k
      = if pos ≤ k ∧ k < pos + n then v (k - pos) else buf k := by
  induction n with
  | zero =>
    rw [if_neg (by omega)]
    rfl
  | succ m ih =>
    rw [List.range_succ, List.foldl_append, List.foldl_cons, List.foldl_nil,
      Function.update_apply]
    by_cases hk : k = pos + m
    · rw [if_pos hk, if_pos (by omega)]
      congr 1
      omega
    · rw [if_neg hk, ih]
      by_cases h1 : pos ≤ k ∧ k < pos + m
      · rw [if_pos h1, if_pos (by omega)]
      · rw [if_neg h1, if_neg (by omega)]

theorem encodeLoop_apply (pattern pos ds : Nat) (buf : Nat → Nat) (k : Nat) :
    encodeLoop pattern pos ds buf k
      = if pos ≤ k ∧ k < pos + ds then encodeByte pattern (ds - 1 - (k - pos)) else buf k :=
  foldl_update_apply (fun i => encodeByte pattern (ds - 1 - i)) pos ds buf k

theorem encodeByte_eq (p j : Nat) : encodeByte p j = p / 256 ^ j % 256 := by
  have hand : ∀ m : Nat, m &&& 0xFF = m % 256 := by
    intro m
    have h : (0xFF : Nat) = 2 ^ 8 - 1 := by norm_num
    rw [h, Nat.and_pow_two_sub_one_eq_mod]
  unfold encodeByte
  by_cases hj : 0 < j
  · rw [if_pos hj]
    have hmask : (p &&& (0xFF <<< (j * 8))) >>> (j * 8) = (p >>> (j * 8)) &&& 0xFF := by
      apply Nat.eq_of_testBit_eq
      intro i
      simp only [Nat.testBit_shiftRight, Nat.testBit_and, Nat.testBit_shiftLeft]
      have h1 : j * 8 + i ≥ j * 8 := by omega
      have h2 : j * 8 + i - j * 8 = i := by omega
      simp [h1, h2]
    rw [hmask, hand, Nat.shiftRight_eq_div_pow,
      Nat.mod_mod_of_dvd _ (dvd_refl 256)]
    congr 1
    rw [show j * 8 = 8 * j by omega, pow_mul]
    norm_num
  · rw [if_neg hj]
    have hj0 : j = 0 := by omega
    subst hj0
    rw [hand, Nat.mod_mod_of_dvd _ (dvd_refl 256), pow_zero, Nat.div_one]

theorem encode_fst (v : ℚ) (valid : Bool) (payload : lmh_app_data_t)
    (schema : sensorPortSchema) :
    (encodeDataWithSchema v valid payload schema).1
      = { payload with
            buffer := encodeLoop (bits32OfInt (dataToEncode v valid schema))
              payload.buffsize (schema.n_bytes / schema.n_values) payload.buffer
            buffsize := (payload.buffsize + schema.n_bytes / schema.n_values) % 256 } := rfl

theorem encode_snd (v : ℚ) (valid : Bool) (payload : lmh_app_data_t)
    (schema : sensorPortSchema) :
    (encodeDataWithSchema v valid payload schema).2
      = (!schema.is_signed && decide (dataToEncode v valid schema < 0)) := rfl

theorem encode_buffer_at (v : ℚ) (valid : Bool) (payload : lmh_app_data_t)
    (schema : sensorPortSchema) (i : Nat)
    (hi : i < schema.n_bytes / schema.n_values) :
    (encodeDataWithSchema v valid payload schema).1.buffer (payload.buffsize + i)
      = bits32OfInt (dataToEncode v valid schema)
          / 256 ^ (schema.n_bytes / schema.n_values - 1 - i) % 256 := by
  rw [encode_fst]
  simp only
  rw [encodeLoop_apply, if_pos (by omega), encodeByte_eq,
    show payload.buffsize + i - payload.buffsize = i by omega]

theorem encode_buffer_untouched (v : ℚ) (valid : Bool) (payload : lmh_app_data_t)
    (schema : sensorPortSchema) (k : Nat)
    (hk : k < payload.buffsize ∨ payload.buffsize + schema.n_bytes / schema.n_values ≤ k) :
    (encodeDataWithSchema v valid payload schema).1.buffer k = payload.buffer k := by
  rw [encode_fst]
  simp only
  rw [encodeLoop_apply, if_neg (by omega)]

theorem reassemble_eq_repByte (buffer : Nat → Nat) (pos n b : Nat)
    (h : ∀ i, i < n → buffer (pos + i) = b) :
    reassemble buffer pos n = repByte b n := by
  unfold reassemble repByte
  induction n with
  | zero => rfl
  | succ m ih =>
    rw [List.range_succ, List.foldl_append, List.foldl_append,
      List.foldl_cons, List.foldl_nil, List.foldl_cons, List.foldl_nil,
      ih (fun i hi => h i (by omega)), h m (by omega)]

theorem reassemble_digits (buffer : Nat → Nat) (pos : Nat) (p n : Nat)
    (h : ∀ i, i < n → buffer (pos + i) = p / 256 ^ (n - 1 - i) % 256) :
    reassemble buffer pos n = p % 256 ^ n := by
  induction n generalizing p with
  | zero =>
    simp [reassemble, Nat.mod_one]
  | succ m ih =>
    unfold reassemble at ih ⊢
    rw [List.range_succ, List.foldl_append, List.foldl_cons, List.foldl_nil]
    have hm : ∀ i, i < m → buffer (pos + i) = (p / 256) / 256 ^ (m - 1 - i) % 256 := by
      intro i hi
      rw [h i (by omega), Nat.div_div_eq_div_mul]
      have he : m + 1 - 1 - i = (m - 1 - i) + 1 := by omega
      rw [he, pow_succ]
      ring_nf
    rw [ih (p / 256) hm, h m (by omega)]
    have he0 : m + 1 - 1 - m = 0 := by omega
    rw [he0, pow_zero, Nat.div_one, pow_succ, mul_comm (256 ^ m) 256, Nat.mod_mul]
    ring

theorem abs_truncTowardZero_sub_le (q : ℚ) : |(truncTowardZero q : ℚ) - q| ≤ 1 := by
  unfold truncTowardZero
  by_cases hq : 0 ≤ q
  · rw [if_pos hq, abs_le]
    constructor
    · have := Int.sub_one_lt_floor q
      linarith
    · have := Int.floor_le q
      linarith
  · rw [if_neg hq, abs_le]
    constructor
    · have := Int.le_ceil q
      linarith
    · have := Int.ceil_lt_add_one q
      linarith

theorem encode_buffsize (v : ℚ) (valid : Bool) (payload : lmh_app_data_t)
    (schema : sensorPortSchema) :
    (encodeDataWithSchema v valid payload schema).1.buffsize
      = (payload.buffsize + schema.n_bytes / schema.n_values) % 256 := rfl

theorem foldl_encode_buffsize (codec : sensorPortSchema) (f : Nat → ℚ) (b : Bool)
    (n : Nat) (payload : lmh_app_data_t)
    (h : payload.buffsize + n * (codec.n_bytes / codec.n_values) ≤ 255) :
    ((List.range n).foldl
        (fun p idx => (encodeDataWithSchema (f idx) b p codec).1) payload).buffsize
      = payload.buffsize + n * (codec.n_bytes / codec.n_values) := by
  induction n with
  | zero => simp
  | succ m ih =>
    have hsm : (m + 1) * (codec.n_bytes / codec.n_values)
        = m * (codec.n_bytes / codec.n_values) + codec.n_bytes / codec.n_values := by
      ring
    rw [hsm, ← Nat.add_assoc] at h
    rw [List.range_succ, List.foldl_append, List.foldl_cons, List.foldl_nil,
      encode_buffsize, ih (le_trans (Nat.le_add_right _ _) h),
      Nat.mod_eq_of_lt (lt_of_le_of_lt h (by norm_num)), hsm, Nat.add_assoc]

theorem encodeField_buffsize (codec : sensorPortSchema) (reading : SensorReading)
    (payload : lmh_app_data_t)
    (hdvd : codec.n_values ∣ codec.n_bytes)
    (h : payload.buffsize + codec.n_bytes ≤ 255) :
    (encodeField codec reading payload).buffsize = payload.buffsize + codec.n_bytes := by
  unfold encodeField
  rw [foldl_encode_buffsize codec _ _ _ _
      (by rw [Nat.mul_div_cancel' hdvd]; exact h),
    Nat.mul_div_cancel' hdvd]

theorem encodedLength_eq_includedLength (codecs : SensorFieldKind → sensorPortSchema)
    (p : portSchema) :
    encodedLength codecs p = includedLength codecs p canonicalFieldOrder := rfl

theorem foldl_fields_buffsize (codecs : SensorFieldKind → sensorPortSchema)
    (port : portSchema) (sd : SensorFieldKind → SensorReading)
    (l : List SensorFieldKind) (payload : lmh_app_data_t)
    (hdvd : ∀ k, (codecs k).n_values ∣ (codecs k).n_bytes)
    (h : payload.buffsize + includedLength codecs port l ≤ 255) :
    (l.foldl
        (fun p k => if port.includes k then encodeField (codecs k) (sd k) p else p)
        payload).buffsize
      = payload.buffsize + includedLength codecs port l := by
  induction l generalizing payload with
  | nil => simp [includedLength]
  | cons k t ih =>
    rw [List.foldl_cons]
    by_cases hk : port.includes k = true
    · have hlen : includedLength codecs port (k :: t)
          = (codecs k).n_bytes + includedLength codecs port t := by
        simp [includedLength, hk]
      rw [hlen] at h ⊢
      have hb := encodeField_buffsize (codecs k) (sd k) payload (hdvd k) (by omega)
      rw [if_pos hk, ih _ (by omega), hb]
      ring
    · have hlen : includedLength codecs port (k :: t) = includedLength codecs port t := by
        simp [includedLength, hk]
      rw [hlen] at h ⊢
      rw [if_neg hk, ih _ (by omega)]

theorem truncTowardZero_intCast (n : Int) : truncTowardZero (n : ℚ) = n := by
  unfold truncTowardZero
  split <;> simp

theorem sentinel_byte_signed (j : Nat) (hj : j ≤ 3) :
    0x7F7F7F7F / 256 ^ j % 256 = 0x7F := by
  interval_cases j <;> decide

theorem sentinel_byte_unsigned (j : Nat) (hj : j ≤ 3) :
    0xFFFFFFFF / 256 ^ j % 256 = 0xFF := by
  interval_cases j <;> decide

theorem encode_invalid_byte (schema : sensorPortSchema) (v : ℚ) (payload : lmh_app_data_t)
    (hds : schema.n_bytes / schema.n_values ≤ 4) (i : Nat)
    (hi : i < schema.n_bytes / schema.n_values) :
    (encodeDataWithSchema v false payload schema).1.buffer (payload.buffsize + i)
      = if schema.is_signed then 0x7F else 0xFF := by
  rw [encode_buffer_at v false payload schema i hi]
  by_cases hs : schema.is_signed = true
  · rw [if_pos hs]
    have hp : bits32OfInt (dataToEncode v false schema) = 0x7F7F7F7F := by
      simp only [dataToEncode, Bool.false_eq_true, if_false, hs, if_true]
      decide
    rw [hp]
    exact sentinel_byte_signed _ (by omega)
  · rw [if_neg hs]
    have hp : bits32OfInt (dataToEncode v false schema) = 0xFFFFFFFF := by
      simp only [dataToEncode, Bool.false_eq_true, if_false, hs]
      decide
    rw [hp]
    exact sentinel_byte_unsigned _ (by omega)

theorem decode_snd (buffer : Nat → Nat) (pos : Nat) (schema : sensorPortSchema) :
    (decodeDataWithSchema buffer pos schema).2
      = decide (reassemble buffer pos (schema.n_bytes / schema.n_values)
          ≠ repByte (if schema.is_signed then 0x7F else 0xFF)
              (schema.n_bytes / schema.n_values)) := rfl

theorem decode_fst (buffer : Nat → Nat) (pos : Nat) (schema : sensorPortSchema) :
    (decodeDataWithSchema buffer pos schema).1
      = (((if schema.is_signed then
            (if 2 ^ (8 * (schema.n_bytes / schema.n_values) - 1)
                ≤ reassemble buffer pos (schema.n_bytes / schema.n_values) then
              ((reassemble buffer pos (schema.n_bytes / schema.n_values) : Int)
                - 2 ^ (8 * (schema.n_bytes / schema.n_values)))
            else (reassemble buffer pos (schema.n_bytes / schema.n_values) : Int))
          else (reassemble buffer pos (schema.n_bytes / schema.n_values) : Int)) : Int) : ℚ)
        / schema.scale_factor := rfl

theorem reassemble_encode (v : ℚ) (valid : Bool) (payload : lmh_app_data_t)
    (schema : sensorPortSchema) :
    reassemble (encodeDataWithSchema v valid payload schema).1.buffer payload.buffsize
        (schema.n_bytes / schema.n_values)
      = bits32OfInt (dataToEncode v valid schema)
          % 256 ^ (schema.n_bytes / schema.n_values) := by
  apply reassemble_digits
  intro i hi
  exact encode_buffer_at v valid payload schema i hi

theorem abs_div_bound (v sf : ℚ) (hsf : 0 < sf) :
    |((truncTowardZero (v * sf) : Int) : ℚ) / sf - v| ≤ 1 / sf := by
  have hq := abs_truncTowardZero_sub_le (v * sf)
  have hne : sf ≠ 0 := ne_of_gt hsf
  have h1 : ((truncTowardZero (v * sf) : Int) : ℚ) / sf - v
      = (((truncTowardZero (v * sf) : Int) : ℚ) - v * sf) / sf := by
    field_simp
    ring
  rw [h1, abs_div, abs_of_pos hsf]
  exact (div_le_div_iff_of_pos_right hsf).mpr hq

/-! ## Claims -/

/-- C1 (counterexample): `encodeDataWithSchema` on a codec with
`n_bytes = 8, n_values = 2` does not increase `buffsize` by `byte_width = 8`
(it increases it by `8 / 2 = 4`), refuting the claim that one call always
appends `byte_width` bytes "including when value_count > 1". -/
theorem claim_C1_counterexample :
    ¬ ((encodeDataWithSchema 0 false testPayload ⟨8, 2, 1, false⟩).1.buffsize
        = testPayload.buffsize + 8) := by
  decide

/-- C1 (amended): one call to `encodeDataWithSchema` appends exactly
`byte_width / value_count` bytes (all other buffer positions are unchanged)
and, provided the resulting length still fits a `uint8_t`, increases
`buffsize` by exactly `byte_width / value_count` — which equals `byte_width`
only when `value_count = 1`. -/
theorem claim_C1 (v : ℚ) (valid : Bool) (payload : lmh_app_data_t)
    (schema : sensorPortSchema)
    (h : payload.buffsize + schema.n_bytes / schema.n_values ≤ 255) :
    (encodeDataWithSchema v valid payload schema).1.buffsize
        = payload.buffsize + schema.n_bytes / schema.n_values
      ∧ ∀ k, k < payload.buffsize ∨ payload.buffsize + schema.n_bytes / schema.n_values ≤ k →
          (encodeDataWithSchema v valid payload schema).1.buffer k = payload.buffer k := by
  constructor
  · rw [encode_buffsize, Nat.mod_eq_of_lt (by omega)]
  · intro k hk
    exact encode_buffer_untouched v valid payload schema k hk

/-- C1 witness: a 2-byte single-value codec starting from an empty payload. -/
theorem claim_C1_witness :
    (encodeDataWithSchema 0 false testPayload ⟨2, 1, 100, false⟩).1.buffsize
      = testPayload.buffsize + 2 / 1 :=
  (claim_C1 0 false testPayload ⟨2, 1, 100, false⟩ (by decide)).1

/-- C2: encoding with `valid = false` appends the sentinel — the byte `0x7F`
repeated across the `byte_width / value_count` appended bytes if the codec is
signed, else the byte `0xFF` repeated — regardless of the value argument
(field widths obey the documented per-value bound of 4 bytes). -/
theorem claim_C2 (schema : sensorPortSchema) (v : ℚ) (payload : lmh_app_data_t)
    (hds : schema.n_bytes / schema.n_values ≤ 4) :
    ∀ i, i < schema.n_bytes / schema.n_values →
      (encodeDataWithSchema v false payload schema).1.buffer (payload.buffsize + i)
        = if schema.is_signed then 0x7F else 0xFF :=
  fun i hi => encode_invalid_byte schema v payload hds i hi

/-- C2 witness: a 2-byte unsigned field encodes invalid data as `0xFF 0xFF`. -/
theorem claim_C2_witness :
    (encodeDataWithSchema 0 false testPayload ⟨2, 1, 100, false⟩).1.buffer
        (testPayload.buffsize + 0) = 0xFF
      ∧ (encodeDataWithSchema 0 false testPayload ⟨2, 1, 100, false⟩).1.buffer
        (testPayload.buffsize + 1) = 0xFF :=
  ⟨claim_C2 ⟨2, 1, 100, false⟩ 0 testPayload (by decide) 0 (by decide),
   claim_C2 ⟨2, 1, 100, false⟩ 0 testPayload (by decide) 1 (by decide)⟩

/-- C5: the combined schema's inclusion flag for every sensor field kind is
the logical OR of the operands' flags, and its port number is 0. -/
theorem claim_C5 (A B : portSchema) (kind : SensorFieldKind) :
    (A.combine B).includes kind = (A.includes kind || B.includes kind)
      ∧ (A.combine B).port_number = 0 := by
  refine ⟨?_, rfl⟩
  cases kind <;> rfl

/-- C7: when an unsigned codec receives a negative computed integer, the
warning is logged (`.2 = true`) but the encoded payload is bit-for-bit the
one an identically-shaped signed codec would produce: the warning branch
never alters the output or aborts the call. -/
theorem claim_C7 (v : ℚ) (payload : lmh_app_data_t) (nb nv : Nat) (sf : ℚ)
    (hneg : truncTowardZero (v * sf) < 0) :
    (encodeDataWithSchema v true payload ⟨nb, nv, sf, false⟩).2 = true
      ∧ (encodeDataWithSchema v true payload ⟨nb, nv, sf, false⟩).1
          = (encodeDataWithSchema v true payload ⟨nb, nv, sf, true⟩).1 := by
  constructor
  · rw [encode_snd]
    simp only [dataToEncode, if_true]
    simpa using hneg
  · rfl

/-- C7 witness: encoding `-1` through a 2-byte unsigned scale-1 codec. -/
theorem claim_C7_witness :
    (encodeDataWithSchema (-1) true testPayload ⟨2, 1, 1, false⟩).2 = true :=
  (claim_C7 (-1) testPayload 2 1 1
    (by rw [show ((-1 : ℚ) * 1) = ((-1 : Int) : ℚ) by norm_num, truncTowardZero_intCast]
        norm_num)).1

/-- C10: one call to `encodeDataWithSchema` writes only the buffer positions
`buffsize` … `buffsize + n_bytes / n_values - 1`, stores the new length in
`buffsize`, and leaves every byte before (and after) the written region and
every other field of the payload struct unchanged. -/
theorem claim_C10 (v : ℚ) (valid : Bool) (payload : lmh_app_data_t)
    (schema : sensorPortSchema) :
    (∀ k, k < payload.buffsize →
        (encodeDataWithSchema v valid payload schema).1.buffer k = payload.buffer k)
      ∧ (∀ k, payload.buffsize + schema.n_bytes / schema.n_values ≤ k →
          (encodeDataWithSchema v valid payload schema).1.buffer k = payload.buffer k)
      ∧ (encodeDataWithSchema v valid payload schema).1.buffsize
          = (payload.buffsize + schema.n_bytes / schema.n_values) % 256
      ∧ (encodeDataWithSchema v valid payload schema).1.port = payload.port
      ∧ (encodeDataWithSchema v valid payload schema).1.rssi = payload.rssi
      ∧ (encodeDataWithSchema v valid payload schema).1.snr = payload.snr :=
  ⟨fun k hk => encode_buffer_untouched v valid payload schema k (Or.inl hk),
   fun k hk => encode_buffer_untouched v valid payload schema k (Or.inr hk),
   rfl, rfl, rfl, rfl⟩

/-- C10 witness: a byte past the written region and the port field are
unchanged on a concrete call. -/
theorem claim_C10_witness :
    (encodeDataWithSchema 0 false testPayload ⟨2, 1, 100, false⟩).1.buffer 7
        = testPayload.buffer 7
      ∧ (encodeDataWithSchema 0 false testPayload ⟨2, 1, 100, false⟩).1.port
        = testPayload.port :=
  ⟨(claim_C10 0 false testPayload ⟨2, 1, 100, false⟩).2.1 7 (by decide),
   (claim_C10 0 false testPayload ⟨2, 1, 100, false⟩).2.2.2.1⟩

/-- C4: looking up any port number carried by no registered schema (255 in
particular) returns the distinguished error schema: port number 255, every
inclusion flag false, encoded length 0 under any codec table; the lookup is
total. -/
theorem claim_C4 (codecs : SensorFieldKind → sensorPortSchema) (n : Nat)
    (h : ∀ p ∈ registeredPorts, p.port_number ≠ n) :
    getPort n = PORTERROR
      ∧ (getPort n).port_number = 255
      ∧ (∀ kind, (getPort n).includes kind = false)
      ∧ encodedLength codecs (getPort n) = 0 := by
  have hget : getPort n = PORTERROR := by
    unfold getPort
    have hnone : registeredPorts.find? (fun p => p.port_number == n) = none := by
      rw [List.find?_eq_none]
      intro p hp
      simpa using h p hp
    rw [hnone]
  refine ⟨hget, ?_, ?_, ?_⟩
  · rw [hget]
    rfl
  · intro kind
    rw [hget]
    cases kind <;> rfl
  · rw [hget]
    rfl

/-- C4 witness: port number 255 itself is unregistered. -/
theorem claim_C4_witness :
    getPort 255 = PORTERROR
      ∧ encodedLength (fun _ => ⟨2, 1, 100, false⟩) (getPort 255) = 0 :=
  ⟨(claim_C4 (fun _ => ⟨2, 1, 100, false⟩) 255 (by decide)).1,
   (claim_C4 (fun _ => ⟨2, 1, 100, false⟩) 255 (by decide)).2.2.2⟩

/-- C6: for every codec table obeying the documented width invariant
(`value_count` divides `byte_width`), every port schema and every snapshot,
encoding advances the write cursor by exactly the port's encoded length — the
sum of `byte_width` over included fields — independent of the snapshot's
values and validity flags (the right-hand side does not mention the
snapshot). -/
theorem claim_C6 (codecs : SensorFieldKind → sensorPortSchema) (port : portSchema)
    (sd : SensorFieldKind → SensorReading) (payload_buffer : Nat → Nat) (start_pos : Nat)
    (hdvd : ∀ k, (codecs k).n_values ∣ (codecs k).n_bytes)
    (h : start_pos + encodedLength codecs port ≤ 255) :
    (encodeSensorDataToPayload codecs port sd payload_buffer start_pos).buffsize
      = start_pos + encodedLength codecs port := by
  unfold encodeSensorDataToPayload
  rw [encodedLength_eq_includedLength] at h ⊢
  exact foldl_fields_buffsize codecs port sd canonicalFieldOrder _ hdvd h

/-- C6 witness: PORT3 (battery + temperature) with 2-byte codecs advances the
cursor by 4 bytes. -/
theorem claim_C6_witness :
    (encodeSensorDataToPayload (fun _ => ⟨2, 1, 100, false⟩) PORT3
        (fun _ => ⟨[1], true⟩) (fun _ => 0) 0).buffsize
      = 0 + encodedLength (fun _ => ⟨2, 1, 100, false⟩) PORT3 :=
  claim_C6 (fun _ => ⟨2, 1, 100, false⟩) PORT3 (fun _ => ⟨[1], true⟩) (fun _ => 0) 0
    (fun k => by cases k <;> decide) (by decide)

/-- C3: for valid data whose scaled truncation fits the field, the appended
bytes are the big-endian base-256 digits, over `byte_width / value_count`
bytes, of the integer obtained by truncating `value * scale_factor` toward
zero. -/
theorem claim_C3 (schema : sensorPortSchema) (v : ℚ) (payload : lmh_app_data_t)
    (hds : schema.n_bytes / schema.n_values ≤ 4)
    (h0 : 0 ≤ truncTowardZero (v * schema.scale_factor))
    (hlt : truncTowardZero (v * schema.scale_factor)
        < 256 ^ (schema.n_bytes / schema.n_values)) :
    ∀ i, i < schema.n_bytes / schema.n_values →
      (encodeDataWithSchema v true payload schema).1.buffer (payload.buffsize + i)
        = (truncTowardZero (v * schema.scale_factor)).toNat
            / 256 ^ (schema.n_bytes / schema.n_values - 1 - i) % 256 := by
  intro i hi
  rw [encode_buffer_at v true payload schema i hi]
  have hd : dataToEncode v true schema
      = truncTowardZero (v * schema.scale_factor) := by
    simp [dataToEncode]
  have h32 : truncTowardZero (v * schema.scale_factor) < 2 ^ 32 := by
    calc truncTowardZero (v * schema.scale_factor)
        < 256 ^ (schema.n_bytes / schema.n_values) := hlt
      _ ≤ 256 ^ 4 := by
          apply pow_le_pow_right₀ (by norm_num) hds
      _ = 2 ^ 32 := by norm_num
  have hp : bits32OfInt (dataToEncode v true schema)
      = (truncTowardZero (v * schema.scale_factor)).toNat := by
    rw [hd]
    unfold bits32OfInt
    rw [Int.emod_eq_of_lt h0 h32]
  rw [hp]

/-- C3 witness: the battery-voltage codec (2 bytes, unsigned, scale 100)
encodes `3.85` as `0x01 0x81` (385 decimal). -/
theorem claim_C3_witness :
    (encodeDataWithSchema (385/100) true testPayload ⟨2, 1, 100, false⟩).1.buffer
        (testPayload.buffsize + 0) = 0x01
      ∧ (encodeDataWithSchema (385/100) true testPayload ⟨2, 1, 100, false⟩).1.buffer
        (testPayload.buffsize + 1) = 0x81 := by
  have htr : truncTowardZero ((385/100 : ℚ) * (100 : ℚ)) = (385 : Int) := by
    rw [show ((385 : ℚ)/100) * (100 : ℚ) = ((385 : Int) : ℚ) by norm_num,
      truncTowardZero_intCast]
  have h := claim_C3 ⟨2, 1, 100, false⟩ (385/100) testPayload (by decide)
    (by dsimp only; rw [htr]; norm_num) (by dsimp only; rw [htr]; norm_num)
  constructor
  · have h0 := h 0 (by decide)
    dsimp only at h0
    rw [htr] at h0
    simpa using h0
  · have h1 := h 1 (by decide)
    dsimp only at h1
    rw [htr] at h1
    simpa using h1

/-- C8: for every field codec (within the documented width invariant) and
every value, decoding the bytes produced by encoding with `valid = false`
yields `was_valid = false`: the reassembled integer equals the sentinel
pattern for the field's width and signedness exactly. -/
theorem claim_C8 (schema : sensorPortSchema) (v : ℚ) (payload : lmh_app_data_t)
    (hds : schema.n_bytes / schema.n_values ≤ 4) :
    (decodeDataWithSchema (encodeDataWithSchema v false payload schema).1.buffer
        payload.buffsize schema).2 = false := by
  rw [decode_snd]
  have hraw : reassemble (encodeDataWithSchema v false payload schema).1.buffer
      payload.buffsize (schema.n_bytes / schema.n_values)
      = repByte (if schema.is_signed then 0x7F else 0xFF)
          (schema.n_bytes / schema.n_values) := by
    apply reassemble_eq_repByte
    intro i hi
    exact encode_invalid_byte schema v payload hds i hi
  rw [hraw]
  simp

/-- C8 witness: the 2-byte unsigned battery codec. -/
theorem claim_C8_witness :
    (decodeDataWithSchema
        (encodeDataWithSchema (385/100) false testPayload ⟨2, 1, 100, false⟩).1.buffer
        testPayload.buffsize ⟨2, 1, 100, false⟩).2 = false :=
  claim_C8 ⟨2, 1, 100, false⟩ (385/100) testPayload (by decide)

theorem decode_encode_valid_eq (schema : sensorPortSchema) (v : ℚ)
    (payload : lmh_app_data_t)
    (hds1 : 1 ≤ schema.n_bytes / schema.n_values)
    (hds4 : schema.n_bytes / schema.n_values ≤ 4)
    (hlow : (if schema.is_signed then
        -(2 ^ (8 * (schema.n_bytes / schema.n_values) - 1)) else 0)
        ≤ truncTowardZero (v * schema.scale_factor))
    (hhigh : truncTowardZero (v * schema.scale_factor)
        < (if schema.is_signed then 2 ^ (8 * (schema.n_bytes / schema.n_values) - 1)
           else 2 ^ (8 * (schema.n_bytes / schema.n_values)))) :
    (decodeDataWithSchema (encodeDataWithSchema v true payload schema).1.buffer
        payload.buffsize schema).1
      = ((truncTowardZero (v * schema.scale_factor) : Int) : ℚ)
          / schema.scale_factor := by
  have hraw := reassemble_encode v true payload schema
  have hdd : dataToEncode v true schema = truncTowardZero (v * schema.scale_factor) := by
    simp [dataToEncode]
  rw [hdd] at hraw
  have hsd : (256 : Nat) ^ (schema.n_bytes / schema.n_values)
      = 2 ^ (8 * (schema.n_bytes / schema.n_values)) := by
    rw [show (256 : Nat) = 2 ^ 8 by norm_num, ← pow_mul]
  rw [hsd] at hraw
  have e2 : (((2 : Nat) ^ (8 * (schema.n_bytes / schema.n_values) - 1) : Nat) : Int)
      = 2 ^ (8 * (schema.n_bytes / schema.n_values) - 1) := by
    push_cast
    rfl
  have e3 : (((2 : Nat) ^ (8 * (schema.n_bytes / schema.n_values)) : Nat) : Int)
      = 2 ^ (8 * (schema.n_bytes / schema.n_values)) := by
    push_cast
    rfl
  have eQP : (2 : Int) ^ (8 * (schema.n_bytes / schema.n_values))
      = 2 * 2 ^ (8 * (schema.n_bytes / schema.n_values) - 1) := by
    rw [← pow_succ']
    congr 1
    omega
  have ePle : (2 : Int) ^ (8 * (schema.n_bytes / schema.n_values) - 1) ≤ 2 ^ 32 := by
    apply pow_le_pow_right₀ (by norm_num)
    omega
  have eQle : (2 : Int) ^ (8 * (schema.n_bytes / schema.n_values)) ≤ 2 ^ 32 := by
    apply pow_le_pow_right₀ (by norm_num)
    omega
  rw [decode_fst]
  by_cases hs : schema.is_signed = true
  · rw [if_pos hs] at hlow hhigh
    rw [if_pos hs]
    by_cases ht0 : 0 ≤ truncTowardZero (v * schema.scale_factor)
    · -- non-negative signed value: pattern is t itself, top bit clear
      have hlt32 : truncTowardZero (v * schema.scale_factor) < 2 ^ 32 :=
        lt_of_lt_of_le hhigh ePle
      have hpat : bits32OfInt (truncTowardZero (v * schema.scale_factor))
          = (truncTowardZero (v * schema.scale_factor)).toNat := by
        unfold bits32OfInt
        rw [Int.emod_eq_of_lt ht0 hlt32]
      rw [hpat] at hraw
      have hhi : (truncTowardZero (v * schema.scale_factor) : Int)
          < ((2 ^ (8 * (schema.n_bytes / schema.n_values) - 1) : Nat) : Int) := by
        rw [e2]
        exact hhigh
      have hmodeq : (truncTowardZero (v * schema.scale_factor)).toNat
            % 2 ^ (8 * (schema.n_bytes / schema.n_values))
          = (truncTowardZero (v * schema.scale_factor)).toNat := by
        apply Nat.mod_eq_of_lt
        have h2 : (2 : Nat) ^ (8 * (schema.n_bytes / schema.n_values))
            = 2 * 2 ^ (8 * (schema.n_bytes / schema.n_values) - 1) := by
          rw [← pow_succ']
          congr 1
          omega
        omega
      rw [hraw, hmodeq]
      rw [if_neg (by omega)]
      rw [Int.toNat_of_nonneg ht0]
    · -- negative signed value: pattern is t + 2^32, top bit set
      push_neg at ht0
      have hm0 : (0 : Int) ≤ truncTowardZero (v * schema.scale_factor) + 2 ^ 32 := by
        have := ePle
        linarith
      have hpat : bits32OfInt (truncTowardZero (v * schema.scale_factor))
          = (truncTowardZero (v * schema.scale_factor) + 2 ^ 32).toNat := by
        unfold bits32OfInt
        have h1 : (truncTowardZero (v * schema.scale_factor) + 2 ^ 32) % (2 : Int) ^ 32
            = truncTowardZero (v * schema.scale_factor) % 2 ^ 32 := by
          rw [show truncTowardZero (v * schema.scale_factor) + (2 : Int) ^ 32
              = truncTowardZero (v * schema.scale_factor) + 2 ^ 32 * 1 by ring,
            Int.add_mul_emod_self_left]
        rw [← h1, Int.emod_eq_of_lt hm0 (by linarith)]
      rw [hpat] at hraw
      have hrawInt : (((truncTowardZero (v * schema.scale_factor) + 2 ^ 32).toNat
            % 2 ^ (8 * (schema.n_bytes / schema.n_values)) : Nat) : Int)
          = truncTowardZero (v * schema.scale_factor)
              + 2 ^ (8 * (schema.n_bytes / schema.n_values)) := by
        rw [Int.natCast_mod, Int.toNat_of_nonneg hm0, e3]
        have hsplit : (2 : Int) ^ 32
            = 2 ^ (8 * (schema.n_bytes / schema.n_values))
                * 2 ^ (32 - 8 * (schema.n_bytes / schema.n_values)) := by
          rw [← pow_add]
          congr 1
          omega
        rw [hsplit, Int.add_mul_emod_self_left]
        have h2 : (truncTowardZero (v * schema.scale_factor)
              + 2 ^ (8 * (schema.n_bytes / schema.n_values)))
                % (2 : Int) ^ (8 * (schema.n_bytes / schema.n_values))
            = truncTowardZero (v * schema.scale_factor)
                % 2 ^ (8 * (schema.n_bytes / schema.n_values)) := by
          rw [show truncTowardZero (v * schema.scale_factor)
              + (2 : Int) ^ (8 * (schema.n_bytes / schema.n_values))
              = truncTowardZero (v * schema.scale_factor)
                + 2 ^ (8 * (schema.n_bytes / schema.n_values)) * 1 by ring,
            Int.add_mul_emod_self_left]
        rw [← h2, Int.emod_eq_of_lt (by linarith) (by linarith)]
      rw [hraw]
      rw [if_pos (by omega)]
      have hfin : (((truncTowardZero (v * schema.scale_factor) + 2 ^ 32).toNat
            % 2 ^ (8 * (schema.n_bytes / schema.n_values)) : Nat) : Int)
            - 2 ^ (8 * (schema.n_bytes / schema.n_values))
          = truncTowardZero (v * schema.scale_factor) := by
        rw [hrawInt]
        ring
      rw [hfin]
  · rw [if_neg hs] at hlow hhigh
    rw [if_neg hs]
    have hlt32 : truncTowardZero (v * schema.scale_factor) < 2 ^ 32 :=
      lt_of_lt_of_le hhigh eQle
    have hpat : bits32OfInt (truncTowardZero (v * schema.scale_factor))
        = (truncTowardZero (v * schema.scale_factor)).toNat := by
      unfold bits32OfInt
      rw [Int.emod_eq_of_lt hlow hlt32]
    rw [hpat] at hraw
    have hhi : (truncTowardZero (v * schema.scale_factor) : Int)
        < ((2 ^ (8 * (schema.n_bytes / schema.n_values)) : Nat) : Int) := by
      rw [e3]
      exact hhigh
    have hmodeq : (truncTowardZero (v * schema.scale_factor)).toNat
          % 2 ^ (8 * (schema.n_bytes / schema.n_values))
        = (truncTowardZero (v * schema.scale_factor)).toNat := by
      apply Nat.mod_eq_of_lt
      omega
    rw [hraw, hmodeq, Int.toNat_of_nonneg hlow]

/-- C9: for every field codec (widths within the documented invariant, positive
scale factor) and every value whose scaled truncation is representable in the
field, decoding the bytes produced by encoding with `valid = true` recovers the
value within `1 / scale_factor` absolute error (the truncation bound). -/
theorem claim_C9 (schema : sensorPortSchema) (v : ℚ) (payload : lmh_app_data_t)
    (hsf : 0 < schema.scale_factor)
    (hds1 : 1 ≤ schema.n_bytes / schema.n_values)
    (hds4 : schema.n_bytes / schema.n_values ≤ 4)
    (hlow : (if schema.is_signed then
        -(2 ^ (8 * (schema.n_bytes / schema.n_values) - 1)) else 0)
        ≤ truncTowardZero (v * schema.scale_factor))
    (hhigh : truncTowardZero (v * schema.scale_factor)
        < (if schema.is_signed then 2 ^ (8 * (schema.n_bytes / schema.n_values) - 1)
           else 2 ^ (8 * (schema.n_bytes / schema.n_values)))) :
    |(decodeDataWithSchema (encodeDataWithSchema v true payload schema).1.buffer
        payload.buffsize schema).1 - v| ≤ 1 / schema.scale_factor := by
  rw [decode_encode_valid_eq schema v payload hds1 hds4 hlow hhigh]
  exact abs_div_bound v schema.scale_factor hsf

/-- C9 witness: the battery codec round-trips `3.85` within `1/100`. -/
theorem claim_C9_witness :
    |(decodeDataWithSchema
        (encodeDataWithSchema (385/100) true testPayload ⟨2, 1, 100, false⟩).1.buffer
        testPayload.buffsize ⟨2, 1, 100, false⟩).1 - 385/100| ≤ 1 / 100 := by
  have htr : truncTowardZero ((385/100 : ℚ) * (100 : ℚ)) = (385 : Int) := by
    rw [show ((385 : ℚ)/100) * (100 : ℚ) = ((385 : Int) : ℚ) by norm_num,
      truncTowardZero_intCast]
  have h := claim_C9 ⟨2, 1, 100, false⟩ (385/100) testPayload (by norm_num) (by decide)
    (by decide) (by dsimp only; rw [htr]; norm_num) (by dsimp only; rw [htr]; norm_num)
  simpa using h

end StringSight
